import Mathlib

/-!
Shallow embedding of the rule-based scanning and classification engine of the
Linux-Kernel-Detector repository (src/tools/detectors/detector.py and
src/scripts/analysis/concurrency_analyzer.py), together with theorems checking
the natural-language specification against it.

Strings of the Python program are modelled as `List Char`; the Python `re`
module is modelled as an abstract matcher oracle (a pattern either fails to
compile, modelling `re.error`, or yields for any content the list of
non-overlapping matches that `re.finditer` would produce, each as a start
offset and matched text).
-/

namespace KernelDetector

/-- The four severity levels of the data model (`critical`, `high`, `medium`,
`low`); `detector.py` initialises `findings_by_severity` with exactly these
keys. -/
inductive Severity where
  | critical
  | high
  | medium
  | low
deriving DecidableEq, Repr

/-- One finding record as built in `AntiPatternDetector.analyze_file`
(detector.py lines 120-128): file, 1-based line, pattern, rule name, severity,
matched text (`match.group(0)`) and context lines. -/
structure Finding where
  file : List Char
  line : Nat
  pattern : List Char
  rule : List Char
  severity : Severity
  matchText : List Char
  context : List (List Char)
deriving DecidableEq, Repr

/-- One rule configuration as read from the detection_rules section of the
config: `enabled` (defaulting to True in rule_config.get), an optional
`severity` (rule_config.get falls back to the medium level when absent,
modelled here as an Option), `directories` and `patterns` (each defaulting
to the empty list in rule_config.get). -/
structure RuleConfig where
  enabled : Bool
  severity : Option Severity
  directories : List (List Char)
  patterns : List (List Char)
deriving DecidableEq, Repr

/-- One regex match as produced by `re.finditer`: start offset in the content
and the matched substring (`match.group(0)`). -/
structure RMatch where
  start : Nat
  text : List Char
deriving DecidableEq, Repr

/-- Abstract model of `re.finditer(pattern, content, re.IGNORECASE |
re.MULTILINE)`: compiling a pattern either fails (`none`, the `re.error`
case) or yields a total search function returning all non-overlapping
matches of the pattern in a given content, in ascending position order. -/
def Matcher : Type := List Char → Option (List Char → List RMatch)

/-- Python substring containment `needle in hay` on strings. -/
def strContains (hay needle : List Char) : Bool :=
  needle.isPrefixOf hay ||
    match hay with
    | [] => false
    | _ :: t => strContains t needle

/-- Number of newline characters in a character list; models
`content[:k].count(chr(10))` when applied to a prefix. -/
def countNl (l : List Char) : Nat :=
  l.count '\n'

/-- Python `content.split(chr(10))`: the list of lines of a string, where a
trailing newline yields a final empty line and the empty string yields one
empty line. -/
def splitNl : List Char → List (List Char)
  | [] => [[]]
  | c :: t =>
    match splitNl t with
    | [] => [[c]]
    | h :: r => if c = '\n' then [] :: h :: r else (c :: h) :: r

/-- `AntiPatternDetector.get_context_lines(lines, line_num, context)`
(detector.py lines 136-140): `lines[max(0, line_num-context) :
min(len(lines), line_num+context+1)]`.  Natural subtraction on `Nat` is
exactly `max(0, ...)`. -/
def get_context_lines (lines : List (List Char)) (line_num : Nat) (context : Nat) :
    List (List Char) :=
  (lines.take (min lines.length (line_num + context + 1))).drop (line_num - context)

/-- The 1-based line number of a match starting at offset `start` in
`content`: `content[:match.start()].count(chr(10)) + 1` (detector.py
line 115). -/
def lineOf (content : List Char) (start : Nat) : Nat :=
  countNl (content.take start) + 1

/-- The finding built for one match of one pattern of one rule
(detector.py lines 113-129). -/
def mkFinding (filePath : List Char) (content : List Char)
    (ruleName : List Char) (cfg : RuleConfig) (pat : List Char) (m : RMatch) :
    Finding :=
  { file := filePath
    line := lineOf content m.start
    pattern := pat
    rule := ruleName
    severity := cfg.severity.getD Severity.medium
    matchText := m.text
    context := get_context_lines (splitNl content) (lineOf content m.start - 1) 3 }

/-- The findings contributed by one pattern of one rule: `[]` when the
pattern fails to compile (the `except re.error` branch, detector.py lines
131-132), otherwise one finding per match of `re.finditer` over the full
content. -/
def patternFindings (matcher : Matcher) (filePath content ruleName : List Char)
    (cfg : RuleConfig) (pat : List Char) : List Finding :=
  match matcher pat with
  | none => []
  | some search => (search content).map (mkFinding filePath content ruleName cfg pat)

/-- Whether a rule applies to a file: the rule is enabled and some entry of
its `directories` is a substring of the directory of the file relative to
the corpus root (the any-target_dir-in-file_dir check of detector.py lines
100-106). -/
def ruleApplies (cfg : RuleConfig) (fileDir : List Char) : Bool :=
  cfg.enabled && cfg.directories.any (fun d => strContains fileDir d)

/-- `AntiPatternDetector.analyze_file` (detector.py lines 96-134) after the
file content has been read: iterate the detection rules in declared order;
skip disabled rules and rules none of whose target directories is contained
in the relative directory of the file; for each remaining rule iterate its
patterns in declared order, collecting one finding per `re.finditer` match;
a pattern that raises `re.error` contributes nothing. -/
def analyze_file (rules : List (List Char × RuleConfig)) (matcher : Matcher)
    (filePath fileDir content : List Char) : List Finding :=
  rules.flatMap fun rc =>
    if ruleApplies rc.2 fileDir then
      rc.2.patterns.flatMap (patternFindings matcher filePath content rc.1 rc.2)
    else []

/-- The statistics dictionary of `AntiPatternDetector.analyze_kernel`
(detector.py lines 152-159): the findings_by_severity mapping is unfolded
into its four fixed keys, findings_by_rule is a total count function
(absent keys count 0, matching dict.get with default 0). -/
structure Statistics where
  total_files : Nat
  analyzed_files : Nat
  files_with_findings : Nat
  total_findings : Nat
  sevCritical : Nat
  sevHigh : Nat
  sevMedium : Nat
  sevLow : Nat
  findings_by_rule : List Char → Nat

/-- Increment the severity counter selected by a finding (detector.py
lines 182-184). -/
def bumpSeverity (st : Statistics) (s : Severity) : Statistics :=
  match s with
  | Severity.critical => { st with sevCritical := st.sevCritical + 1 }
  | Severity.high => { st with sevHigh := st.sevHigh + 1 }
  | Severity.medium => { st with sevMedium := st.sevMedium + 1 }
  | Severity.low => { st with sevLow := st.sevLow + 1 }

/-- Fold one finding into the statistics: bump its severity counter and its
per-rule counter (detector.py lines 182-188). -/
def foldFinding (st : Statistics) (f : Finding) : Statistics :=
  let st1 := bumpSeverity st f.severity
  { st1 with findings_by_rule := fun r =>
      if r = f.rule then st1.findings_by_rule r + 1 else st1.findings_by_rule r }

/-- Process one completed per-file future (detector.py lines 170-193).
`none` models a per-file analysis failure caught by the except branch
(logged, nothing folded); `some fs` models a successful result: extend the
findings list, bump analyzed_files, and when the batch is non-empty bump
files_with_findings, add the batch length to total_findings and fold each
finding into the severity and rule counters. -/
def processResult (acc : List Finding × Statistics) (r : Option (List Finding)) :
    List Finding × Statistics :=
  match r with
  | none => acc
  | some fs =>
    let all := acc.1 ++ fs
    let st1 := { acc.2 with analyzed_files := acc.2.analyzed_files + 1 }
    let st2 :=
      if fs.isEmpty then st1
      else
        fs.foldl foldFinding
          { st1 with
            files_with_findings := st1.files_with_findings + 1
            total_findings := st1.total_findings + fs.length }
    (all, st2)

/-- The initial statistics of a run over `n` files (detector.py lines
152-159): every counter starts at zero and findings_by_rule is the empty
dict. -/
def initStats (n : Nat) : Statistics :=
  { total_files := n
    analyzed_files := 0
    files_with_findings := 0
    total_findings := 0
    sevCritical := 0
    sevHigh := 0
    sevMedium := 0
    sevLow := 0
    findings_by_rule := fun _ => 0 }

/-- The aggregation loop of `AntiPatternDetector.analyze_kernel`
(detector.py lines 142-210), abstracted over the completion order of the
worker pool: the per-file results arrive as a list of optional finding
batches (in an arbitrary order, `none` for a failed file) and are folded
into the findings list and the statistics. -/
def analyze_kernel (results : List (Option (List Finding))) :
    List Finding × Statistics :=
  results.foldl processResult ([], initStats results.length)

/-- The sum of the four findings_by_severity counters. -/
def sevTotal (st : Statistics) : Nat :=
  st.sevCritical + st.sevHigh + st.sevMedium + st.sevLow

/-! Index-keyed variant of the per-file scan, used to state the
rule-then-pattern-then-match-position ordering of the findings of one
file. Each finding is tagged with the triple (rule index in declared
order, pattern index within the rule, match start offset). -/

/-- The keyed findings of the patterns of one rule, starting at pattern
index `pidx`. -/
def keyedPatterns (matcher : Matcher) (filePath content ruleName : List Char)
    (cfg : RuleConfig) (ridx : Nat) : Nat → List (List Char) →
    List ((Nat × Nat × Nat) × Finding)
  | _, [] => []
  | pidx, p :: rest =>
    (match matcher p with
     | none => []
     | some search =>
       (search content).map fun m =>
         ((ridx, pidx, m.start), mkFinding filePath content ruleName cfg p m)) ++
    keyedPatterns matcher filePath content ruleName cfg ridx (pidx + 1) rest

/-- The keyed findings of a list of rules, starting at rule index
`ridx`. -/
def keyedRules (matcher : Matcher) (filePath fileDir content : List Char) :
    Nat → List (List Char × RuleConfig) → List ((Nat × Nat × Nat) × Finding)
  | _, [] => []
  | ridx, rc :: rest =>
    (if ruleApplies rc.2 fileDir then
       keyedPatterns matcher filePath content rc.1 rc.2 ridx 0 rc.2.patterns
     else []) ++
    keyedRules matcher filePath fileDir content (ridx + 1) rest

/-- `analyze_file` with each finding tagged by its
(rule index, pattern index, match start) provenance triple. -/
def analyze_file_keyed (rules : List (List Char × RuleConfig)) (matcher : Matcher)
    (filePath fileDir content : List Char) : List ((Nat × Nat × Nat) × Finding) :=
  keyedRules matcher filePath fileDir content 0 rules

/-- Strict lexicographic order on (rule index, pattern index, match start)
triples. -/
def keyLt (a b : Nat × Nat × Nat) : Prop :=
  a.1 < b.1 ∨ (a.1 = b.1 ∧ (a.2.1 < b.2.1 ∨ (a.2.1 = b.2.1 ∧ a.2.2 < b.2.2)))

/-! Embedding of `ConcurrencyAnalyzer.classify_concurrency_issues`
(concurrency_analyzer.py lines 41-176).  The re.search call on the lowered
matched text is modelled by an abstract boolean predicate on
(pattern, text). -/

/-- One classification category: key, ordered pattern list and
description, as declared in the concurrency_patterns dict. -/
structure Category where
  key : List Char
  patterns : List (List Char)
  description : List Char

/-- Abstract model of `re.search(pattern, issue_text, re.IGNORECASE)`
returning whether some match exists. -/
def MatchPred : Type := List Char → List Char → Bool

/-- One record appended to a classification bucket (concurrency_analyzer.py
lines 154-161 and 169-176): file, line, matched text, context, the pattern
credited with the classification, and the category description. -/
structure ClassifiedIssue where
  file : List Char
  line : Nat
  matchText : List Char
  context : List (List Char)
  pattern : List Char
  description : List Char
deriving DecidableEq, Repr

/-- Python str.lower applied characterwise. -/
def toLowerStr (l : List Char) : List Char :=
  l.map Char.toLower

/-- The first (category, pattern) pair matching a text: categories are
tried in declared order and, within a category, patterns in declared
order; the search stops at the first hit (the matched flag and the two
break statements, concurrency_analyzer.py lines 149-165). -/
def firstCategoryMatch (mp : MatchPred) (cats : List Category) (text : List Char) :
    Option (Category × List Char) :=
  cats.findSome? fun cat =>
    (cat.patterns.find? fun p => mp p text).map fun p => (cat, p)

/-- The reserved fallback category key (concurrency_analyzer.py line
169). -/
def generalKey : List Char :=
  "general_concurrency".toList

/-- Classify one issue: the assigned bucket key together with the record
appended to that bucket.  An unmatched issue goes to the
general_concurrency bucket, keeping its own pattern and the generic
description (concurrency_analyzer.py lines 145-176). -/
def classifyFinding (mp : MatchPred) (cats : List Category) (issue : Finding) :
    List Char × ClassifiedIssue :=
  match firstCategoryMatch mp cats (toLowerStr issue.matchText) with
  | some (cat, p) =>
    (cat.key,
     { file := issue.file
       line := issue.line
       matchText := issue.matchText
       context := issue.context
       pattern := p
       description := cat.description })
  | none =>
    (generalKey,
     { file := issue.file
       line := issue.line
       matchText := issue.matchText
       context := issue.context
       pattern := issue.pattern
       description := "General concurrency issues".toList })

/-- `classify_concurrency_issues`: process the issues in order, appending
each classified record to the bucket of its assigned category.  The
defaultdict of lists is modelled as a total function from bucket key to
list (absent keys map to the empty list). -/
def classify_concurrency_issues (mp : MatchPred) (cats : List Category)
    (issues : List Finding) : List Char → List ClassifiedIssue :=
  issues.foldl
    (fun acc issue => fun c =>
      if c = (classifyFinding mp cats issue).1 then
        acc c ++ [(classifyFinding mp cats issue).2]
      else acc c)
    (fun _ => [])

/-! Embedding of `ConcurrencyAnalyzer.extract_code_snippets`
(concurrency_analyzer.py lines 178-207). -/

/-- The state of the source file of an issue when re-opened for snippet
extraction: missing (exists() is false), unreadable (open or read raised,
with the message of the exception), or readable with its readlines
result. -/
inductive FileAccess where
  | missing
  | unreadable (msg : List Char)
  | readable (lines : List (List Char))

/-- Python str.rstrip: drop trailing whitespace. -/
def rstrip (l : List Char) : List Char :=
  (l.reverse.dropWhile Char.isWhitespace).reverse

/-- Python format {n:4d}: the decimal digits of n right-justified to width
four with spaces. -/
def pad4 (n : Nat) : List Char :=
  List.replicate (4 - (Nat.repr n).toList.length) ' ' ++ (Nat.repr n).toList

/-- One snippet line (concurrency_analyzer.py lines 199-200): the matched
line (0-based index `lineIdx`) is prefixed with a marker, context lines
with four spaces; then the 1-based line number padded to width four, a
colon, a space and the right-stripped source line. -/
def snippetLine (lineIdx i : Nat) (text : List Char) : List Char :=
  (if i = lineIdx then ">>> ".toList else "    ".toList) ++
    pad4 (i + 1) ++ ": ".toList ++ rstrip text

/-- The snippet attached to one issue (concurrency_analyzer.py lines
184-207): a missing file yields a File-not-found placeholder, a read
failure an Error-reading-file placeholder, and a readable file the
annotated lines with 0-based indices from max(0, line-1-5) to
min(len(lines), line-1+6) exclusive. -/
def extract_code_snippet (fa : FileAccess) (filePath : List Char) (line : Nat) :
    List (List Char) :=
  match fa with
  | FileAccess.missing => ["File not found: ".toList ++ filePath]
  | FileAccess.unreadable msg => ["Error reading file: ".toList ++ msg]
  | FileAccess.readable lines =>
    (List.range' (line - 1 - 5)
        (min lines.length (line - 1 + 6) - (line - 1 - 5))).map
      fun i => snippetLine (line - 1) i (lines.getD i [])

/-- A classified issue with its attached code_snippet field. -/
structure SnippetIssue extends ClassifiedIssue where
  code_snippet : List (List Char)

/-- `extract_code_snippets` over one bucket: attach to every classified
issue the snippet read from the (re-opened) source file of the issue,
here modelled by a file-system function from path to FileAccess. -/
def extract_code_snippets (fs : List Char → FileAccess)
    (issues : List ClassifiedIssue) : List SnippetIssue :=
  issues.map fun i =>
    { toClassifiedIssue := i
      code_snippet := extract_code_snippet (fs i.file) i.file i.line }

/-! Embedding of `AntiPatternDetector.get_c_files` (detector.py lines
62-82). -/

/-- One candidate file of the corpus tree: its path and its stat size in
bytes. -/
structure FileEntry where
  path : List Char
  size : Nat
deriving DecidableEq, Repr

/-- `get_c_files`: walk the .c files of the tree (the rglob star-dot-c
enumeration, modelled by a suffix check on the path), skip files matching
an exclude pattern (the glob match is an abstract predicate) and files
whose size exceeds max_file_size, keeping everything else. -/
def get_c_files (tree : List FileEntry) (exclude : List Char → Bool)
    (max_file_size : Nat) : List FileEntry :=
  tree.filter fun f =>
    ".c".toList.isSuffixOf f.path && !exclude f.path &&
      decide (f.size ≤ max_file_size)

/-! Model of the file-read step of `analyze_file` (detector.py lines
88-94): the file is opened with encoding utf-8 and errors ignore, so
decoding never raises and invalid bytes are dropped; only an OSError (the
generic except branch) makes the function return the empty findings list.
The utf-8 codec is modelled on byte lists: the decoder below implements
utf-8 decoding with the ignore error handler, including the validity
checks of the CPython decoder: an assembled code point is emitted only
when it is at least the minimum value of its sequence length (rejecting
overlong forms such as C0 80), is not a surrogate (rejecting ED A0 80 and
its kin) and is at most U+10FFFF (rejecting F4 90 80 80 and beyond); a
rejected or truncated sequence contributes nothing.  The checks sit at
emission rather than at the first continuation byte; the decoded string
is the same either way under the ignore handler, because every byte such
a pending sequence has consumed is a continuation byte, which the ignore
handler would drop as a stray were it reprocessed. -/

/-- Whether a byte is a utf-8 continuation byte (high bits 10). -/
def isCont (b : Nat) : Bool :=
  decide (128 ≤ b) && decide (b < 192)

/-- Whether an assembled code point is admissible for a multi-byte
sequence with minimum value `lo`: not an overlong form (below `lo`), not
beyond U+10FFFF, not a surrogate. -/
def validScalar (lo v : Nat) : Bool :=
  decide (lo ≤ v) && decide (v < 1114112) &&
    !(decide (55296 ≤ v) && decide (v < 57344))

/-- Processing of one leading byte: the code point emitted for it (ASCII
bytes emit themselves; stray continuation bytes and bytes above 0xF7 emit
nothing, being invalid) together with the successor decoder state
(continuation bytes still expected, accumulated value, minimum admissible
final value for the sequence length). -/
def leadState (b : Nat) : Option Nat × (Nat × Nat × Nat) :=
  if b < 128 then (some b, (0, 0, 0))
  else if b < 192 then (none, (0, 0, 0))
  else if b < 224 then (none, (1, b - 192, 128))
  else if b < 240 then (none, (2, b - 224, 2048))
  else if b < 248 then (none, (3, b - 240, 65536))
  else (none, (0, 0, 0))

/-- utf-8 decoding with the ignore error handler, as a byte-at-a-time
state machine: the state is the number of continuation bytes still
expected, the value accumulated so far and the minimum admissible final
value.  ASCII bytes decode to themselves; a completed multi-byte sequence
emits its code point only when `validScalar` admits it (no overlong, no
surrogate, at most U+10FFFF) and is dropped otherwise; any invalid byte
is skipped; a non-continuation byte arriving while a sequence is pending
drops the pending bytes and is reprocessed as a fresh lead; a truncated
sequence at end of input is dropped. -/
def utf8Fold : Nat × Nat × Nat → List Nat → List Nat
  | _, [] => []
  | (0, _, _), b :: rest =>
    (match leadState b with
     | (some c, s) => c :: utf8Fold s rest
     | (none, s) => utf8Fold s rest)
  | (need + 1, acc, lo), b :: rest =>
    if isCont b then
      (if need = 0 then
        (if validScalar lo (acc * 64 + (b - 128)) then
          (acc * 64 + (b - 128)) :: utf8Fold (0, 0, 0) rest
         else utf8Fold (0, 0, 0) rest)
       else utf8Fold (need, acc * 64 + (b - 128), lo) rest)
    else
      (match leadState b with
       | (some c, s) => c :: utf8Fold s rest
       | (none, s) => utf8Fold s rest)

/-- utf-8 decoding of a byte list with the ignore error handler (the
errors-ignore open mode of detector.py line 89): start in the clean
state. -/
def utf8DecodeIgnore (l : List Nat) : List Nat :=
  utf8Fold (0, 0, 0) l

/-- utf-8 encoding of one code point (assumed below 0x110000). -/
def utf8EncodeChar (c : Nat) : List Nat :=
  if c < 128 then [c]
  else if c < 2048 then [192 + c / 64, 128 + c % 64]
  else if c < 65536 then [224 + c / 4096, 128 + (c / 64) % 64, 128 + c % 64]
  else [240 + c / 262144, 128 + (c / 4096) % 64, 128 + (c / 64) % 64, 128 + c % 64]

/-- utf-8 encoding of a code point sequence. -/
def utf8Encode (cs : List Nat) : List Nat :=
  cs.flatMap utf8EncodeChar

/-- Modelled from the spec: the decode behaviour the specification
describes for the file-read step, namely that on decode failure invalid
bytes are substituted (each skipped invalid byte is replaced by the
replacement character U+FFFD) rather than dropped.  This definition
follows the wording of the spec and is compared against
`utf8DecodeIgnore`, which embeds the actual errors-ignore open call of
detector.py line 89. -/
def leadStateReplace (b : Nat) : Option Nat × (Nat × Nat × Nat) :=
  if b < 128 then (some b, (0, 0, 0))
  else if b < 192 then (some 65533, (0, 0, 0))
  else if b < 224 then (none, (1, b - 192, 128))
  else if b < 240 then (none, (2, b - 224, 2048))
  else if b < 248 then (none, (3, b - 240, 65536))
  else (some 65533, (0, 0, 0))

def utf8FoldReplace : Nat × Nat × Nat → List Nat → List Nat
  | (0, _, _), [] => []
  | (_ + 1, _, _), [] => [65533]
  | (0, _, _), b :: rest =>
    (match leadStateReplace b with
     | (some c, s) => c :: utf8FoldReplace s rest
     | (none, s) => utf8FoldReplace s rest)
  | (need + 1, acc, lo), b :: rest =>
    if isCont b then
      (if need = 0 then
        (if validScalar lo (acc * 64 + (b - 128)) then
          (acc * 64 + (b - 128)) :: utf8FoldReplace (0, 0, 0) rest
         else 65533 :: utf8FoldReplace (0, 0, 0) rest)
       else utf8FoldReplace (need, acc * 64 + (b - 128), lo) rest)
    else
      65533 ::
        (match leadStateReplace b with
         | (some c, s) => c :: utf8FoldReplace s rest
         | (none, s) => utf8FoldReplace s rest)

def utf8DecodeReplace (l : List Nat) : List Nat :=
  utf8FoldReplace (0, 0, 0) l

/-- The decoded content of a byte list as characters: utf-8 decode with
the ignore handler, then each code point as a Char. -/
def bytesToContent (bytes : List Nat) : List Char :=
  (utf8DecodeIgnore bytes).map Char.ofNat

/-- The file-read step of `analyze_file` (detector.py lines 84-94)
composed with the scan: `none` models an OSError from open or read (caught
by the except branch, which logs and returns the empty findings list);
`some bytes` models a readable file with the given raw bytes, which is
always decoded (never a failure, whatever the bytes) and then scanned. -/
def analyze_file_read (rules : List (List Char × RuleConfig)) (matcher : Matcher)
    (filePath fileDir : List Char) (readResult : Option (List Nat)) :
    List Finding :=
  match readResult with
  | none => []
  | some bytes => analyze_file rules matcher filePath fileDir (bytesToContent bytes)

/-! Helper lemmas. -/

lemma foldFinding_total_findings (st : Statistics) (f : Finding) :
    (foldFinding st f).total_findings = st.total_findings := by
  cases h : f.severity <;> simp [foldFinding, bumpSeverity, h]

lemma foldFinding_sevTotal (st : Statistics) (f : Finding) :
    sevTotal (foldFinding st f) = sevTotal st + 1 := by
  cases h : f.severity <;> simp [foldFinding, bumpSeverity, sevTotal, h] <;> omega

lemma foldl_foldFinding_total_findings (fs : List Finding) (st : Statistics) :
    (fs.foldl foldFinding st).total_findings = st.total_findings := by
  induction fs generalizing st with
  | nil => rfl
  | cons f rest ih => simp [List.foldl_cons, ih, foldFinding_total_findings]

lemma foldl_foldFinding_sevTotal (fs : List Finding) (st : Statistics) :
    sevTotal (fs.foldl foldFinding st) = sevTotal st + fs.length := by
  induction fs generalizing st with
  | nil => rfl
  | cons f rest ih =>
    simp [List.foldl_cons, ih, foldFinding_sevTotal]
    omega

lemma processResult_invariant (acc : List Finding × Statistics)
    (r : Option (List Finding))
    (h1 : acc.2.total_findings = acc.1.length)
    (h2 : sevTotal acc.2 = acc.2.total_findings) :
    (processResult acc r).2.total_findings = (processResult acc r).1.length ∧
      sevTotal (processResult acc r).2 = (processResult acc r).2.total_findings := by
  cases r with
  | none => exact ⟨h1, h2⟩
  | some fs =>
    by_cases he : fs.isEmpty
    · have hnil : fs = [] := List.isEmpty_iff.mp he
      subst hnil
      refine ⟨?_, ?_⟩
      · simpa [processResult] using h1
      · simpa [processResult, sevTotal] using h2
    · refine ⟨?_, ?_⟩
      · show (processResult acc (some fs)).2.total_findings = _
        simp only [processResult]
        rw [if_neg he, foldl_foldFinding_total_findings]
        simp [h1]
      · show sevTotal (processResult acc (some fs)).2 = _
        simp only [processResult]
        rw [if_neg he, foldl_foldFinding_sevTotal, foldl_foldFinding_total_findings]
        simp only [sevTotal] at h2 ⊢
        omega

lemma analyze_kernel_foldl_invariant (results : List (Option (List Finding)))
    (acc : List Finding × Statistics)
    (h1 : acc.2.total_findings = acc.1.length)
    (h2 : sevTotal acc.2 = acc.2.total_findings) :
    (results.foldl processResult acc).2.total_findings =
        (results.foldl processResult acc).1.length ∧
      sevTotal (results.foldl processResult acc).2 =
        (results.foldl processResult acc).2.total_findings := by
  induction results generalizing acc with
  | nil => exact ⟨h1, h2⟩
  | cons r rest ih =>
    have := processResult_invariant acc r h1 h2
    exact ih (processResult acc r) this.1 this.2

/-! Claim theorems. -/

/-- C1: for every run of the scan, whatever the per-file batches (some
findings, an empty batch, or a failed analysis) and whatever their
completion order, the aggregated statistics satisfy the sum invariant:
total_findings equals the length of the findings list of the report, and
the four findings_by_severity counters sum to total_findings. -/
theorem C1_statistics_sum_invariant (results : List (Option (List Finding))) :
    (analyze_kernel results).2.total_findings = (analyze_kernel results).1.length ∧
      sevTotal (analyze_kernel results).2 = (analyze_kernel results).2.total_findings := by
  exact analyze_kernel_foldl_invariant results ([], initStats results.length) rfl rfl

lemma mem_patternFindings {matcher : Matcher} {filePath content ruleName : List Char}
    {cfg : RuleConfig} {pat : List Char} {f : Finding} :
    f ∈ patternFindings matcher filePath content ruleName cfg pat ↔
      ∃ search, matcher pat = some search ∧
        ∃ m ∈ search content, mkFinding filePath content ruleName cfg pat m = f := by
  unfold patternFindings
  cases hm : matcher pat <;> simp [hm]

lemma ruleApplies_iff {cfg : RuleConfig} {fileDir : List Char} :
    ruleApplies cfg fileDir = true ↔
      cfg.enabled = true ∧ ∃ d ∈ cfg.directories, strContains fileDir d = true := by
  simp [ruleApplies]

lemma mem_analyze_file {rules : List (List Char × RuleConfig)} {matcher : Matcher}
    {filePath fileDir content : List Char} {f : Finding} :
    f ∈ analyze_file rules matcher filePath fileDir content ↔
      ∃ ruleName cfg, (ruleName, cfg) ∈ rules ∧
        ruleApplies cfg fileDir = true ∧
        ∃ pat ∈ cfg.patterns,
          f ∈ patternFindings matcher filePath content ruleName cfg pat := by
  unfold analyze_file
  rw [List.mem_flatMap]
  constructor
  · rintro ⟨⟨ruleName, cfg⟩, hmem, hf⟩
    by_cases ha : ruleApplies cfg fileDir
    · rw [if_pos ha, List.mem_flatMap] at hf
      obtain ⟨pat, hpat, hf2⟩ := hf
      exact ⟨ruleName, cfg, hmem, ha, pat, hpat, hf2⟩
    · rw [if_neg ha] at hf
      exact absurd hf (List.not_mem_nil f)
  · rintro ⟨ruleName, cfg, hmem, ha, pat, hpat, hf⟩
    refine ⟨(ruleName, cfg), hmem, ?_⟩
    rw [if_pos ha, List.mem_flatMap]
    exact ⟨pat, hpat, hf⟩

/-- C2: a finding is emitted by `analyze_file` exactly when some rule of the
rule set is enabled, has a target directory contained in the relative
directory of the file, and has a pattern the matcher compiles and matches
somewhere in the content; every match of every such pattern yields its own
finding (not only the first), and a disabled rule yields none. -/
theorem C2_analyze_file_membership (rules : List (List Char × RuleConfig))
    (matcher : Matcher) (filePath fileDir content : List Char) (f : Finding) :
    f ∈ analyze_file rules matcher filePath fileDir content ↔
      ∃ ruleName cfg, (ruleName, cfg) ∈ rules ∧
        cfg.enabled = true ∧
        (∃ d ∈ cfg.directories, strContains fileDir d = true) ∧
        ∃ pat ∈ cfg.patterns, ∃ search, matcher pat = some search ∧
          ∃ m ∈ search content,
            mkFinding filePath content ruleName cfg pat m = f := by
  rw [mem_analyze_file]
  constructor
  · rintro ⟨ruleName, cfg, hmem, ha, pat, hpat, hf⟩
    obtain ⟨hen, hdir⟩ := ruleApplies_iff.mp ha
    obtain ⟨search, hms, m, hm, heq⟩ := mem_patternFindings.mp hf
    exact ⟨ruleName, cfg, hmem, hen, hdir, pat, hpat, search, hms, m, hm, heq⟩
  · rintro ⟨ruleName, cfg, hmem, hen, hdir, pat, hpat, search, hms, m, hm, heq⟩
    exact ⟨ruleName, cfg, hmem, ruleApplies_iff.mpr ⟨hen, hdir⟩, pat, hpat,
      mem_patternFindings.mpr ⟨search, hms, m, hm, heq⟩⟩

lemma splitNl_ne_nil (l : List Char) : splitNl l ≠ [] := by
  cases l with
  | nil => simp [splitNl]
  | cons c t =>
    simp only [splitNl]
    cases splitNl t with
    | nil => simp
    | cons h r =>
      by_cases hc : c = '\n' <;> simp [hc]

lemma length_splitNl (l : List Char) : (splitNl l).length = countNl l + 1 := by
  induction l with
  | nil => simp [splitNl, countNl]
  | cons c t ih =>
    simp only [splitNl]
    cases hs : splitNl t with
    | nil => exact absurd hs (splitNl_ne_nil t)
    | cons h r =>
      rw [hs] at ih
      by_cases hc : c = '\n'
      · simp [hc, countNl, List.count_cons] at ih ⊢
        omega
      · simp [hc, countNl, List.count_cons] at ih ⊢
        simpa [hc] using ih

lemma countNl_take_le (l : List Char) (k : Nat) :
    countNl (l.take k) ≤ countNl l := by
  unfold countNl
  exact (List.take_sublist k l).count_le '\n'

lemma get_context_lines_window (lines : List (List Char)) (line : Nat)
    (h : 1 ≤ line) :
    get_context_lines lines (line - 1) 3 =
      (lines.take (min lines.length (line + 3))).drop (max 1 (line - 3) - 1) := by
  unfold get_context_lines
  have e1 : line - 1 + 3 + 1 = line + 3 := by omega
  have e2 : line - 1 - 3 = max 1 (line - 3) - 1 := by omega
  rw [e1, e2]

/-- C3: every finding of `analyze_file` carries the 1-based line number
obtained by counting newline characters strictly before the start offset
of its match, that number lies between 1 and the number of lines of the
content, and its context is the window of lines from max(1, line-3)
through min(number_of_lines, line+3). -/
theorem C3_line_and_context (rules : List (List Char × RuleConfig))
    (matcher : Matcher) (filePath fileDir content : List Char) (f : Finding)
    (hf : f ∈ analyze_file rules matcher filePath fileDir content) :
    (∃ pat search m, matcher pat = some search ∧ m ∈ search content ∧
        f.line = countNl (content.take m.start) + 1) ∧
      1 ≤ f.line ∧ f.line ≤ (splitNl content).length ∧
      f.context = ((splitNl content).take (min (splitNl content).length (f.line + 3))).drop
        (max 1 (f.line - 3) - 1) := by
  obtain ⟨ruleName, cfg, hmem, ha, pat, hpat, hpf⟩ := mem_analyze_file.mp hf
  obtain ⟨search, hms, m, hm, heq⟩ := mem_patternFindings.mp hpf
  subst heq
  refine ⟨⟨pat, search, m, hms, hm, rfl⟩, ?_, ?_, ?_⟩
  · exact Nat.succ_le_succ (Nat.zero_le _)
  · show lineOf content m.start ≤ (splitNl content).length
    rw [length_splitNl]
    exact Nat.succ_le_succ (countNl_take_le content m.start)
  · show get_context_lines (splitNl content) (lineOf content m.start - 1) 3 = _
    exact get_context_lines_window (splitNl content) (lineOf content m.start)
      (Nat.succ_le_succ (Nat.zero_le _))

/-- C10: every finding of `analyze_file` carries the severity configured on
its rule when one is configured, and the medium default otherwise (a rule
omitting the severity field still scans and its findings are kept, with
severity medium). -/
theorem C10_severity_default (rules : List (List Char × RuleConfig))
    (matcher : Matcher) (filePath fileDir content : List Char) (f : Finding)
    (hf : f ∈ analyze_file rules matcher filePath fileDir content) :
    ∃ cfg, (f.rule, cfg) ∈ rules ∧
      f.severity = cfg.severity.getD Severity.medium := by
  obtain ⟨ruleName, cfg, hmem, _, pat, _, hpf⟩ := mem_analyze_file.mp hf
  obtain ⟨search, _, m, _, heq⟩ := mem_patternFindings.mp hpf
  subst heq
  exact ⟨cfg, hmem, rfl⟩

/-! Concrete fixtures used by the witness theorems. -/

/-- A one-rule rule set with configured severity high. -/
def rules0 : List (List Char × RuleConfig) :=
  [("race".toList,
    { enabled := true
      severity := some Severity.high
      directories := ["kernel".toList]
      patterns := ["race".toList] })]

/-- A one-rule rule set whose configuration omits the severity field. -/
def rulesNoSev : List (List Char × RuleConfig) :=
  [("race".toList,
    { enabled := true
      severity := none
      directories := ["kernel".toList]
      patterns := ["race".toList] })]

/-- A matcher that compiles every pattern and always reports one match at
offset 3. -/
def matcher0 : Matcher :=
  fun _ => some (fun _ => [⟨3, "c".toList⟩])

/-- Concrete scan inputs. -/
def filePath0 : List Char := "kernel/sched/core.c".toList

def fileDir0 : List Char := "kernel/sched".toList

def content0 : List Char := "ab\ncd".toList

/-- The single finding of the concrete scan. -/
def finding0 : Finding :=
  mkFinding filePath0 content0 "race".toList
    { enabled := true
      severity := some Severity.high
      directories := ["kernel".toList]
      patterns := ["race".toList] }
    "race".toList ⟨3, "c".toList⟩

theorem C3_line_and_context_witness :
    finding0 ∈ analyze_file rules0 matcher0 filePath0 fileDir0 content0 ∧
      1 ≤ finding0.line ∧ finding0.line ≤ (splitNl content0).length :=
  ⟨by decide,
   (C3_line_and_context rules0 matcher0 filePath0 fileDir0 content0 finding0
      (by decide)).2.1,
   (C3_line_and_context rules0 matcher0 filePath0 fileDir0 content0 finding0
      (by decide)).2.2.1⟩

/-- The single finding of the concrete scan under the severity-less rule
set. -/
def findingNoSev : Finding :=
  mkFinding filePath0 content0 "race".toList
    { enabled := true
      severity := none
      directories := ["kernel".toList]
      patterns := ["race".toList] }
    "race".toList ⟨3, "c".toList⟩

theorem C10_severity_default_witness :
    ∃ cfg, (findingNoSev.rule, cfg) ∈ rulesNoSev ∧
      findingNoSev.severity = cfg.severity.getD Severity.medium :=
  C10_severity_default rulesNoSev matcher0 filePath0 fileDir0 content0
    findingNoSev (by decide)

lemma flatMap_patternFindings_filter (matcher : Matcher)
    (filePath content ruleName : List Char) (cfg : RuleConfig)
    (pats : List (List Char)) (bad : List Char) (hbad : matcher bad = none) :
    pats.flatMap (patternFindings matcher filePath content ruleName cfg) =
      (pats.filter fun p => decide (p ≠ bad)).flatMap
        (patternFindings matcher filePath content ruleName cfg) := by
  induction pats with
  | nil => rfl
  | cons p rest ih =>
    by_cases hp : p = bad
    · subst hp
      have hempty : patternFindings matcher filePath content ruleName cfg p = [] := by
        unfold patternFindings
        rw [hbad]
      simp [List.flatMap_cons, hempty, ih]
    · simp [List.flatMap_cons, hp, ih]

/-- C5: a pattern the matcher cannot compile never aborts the file, the
rule or the run: scanning with the full rule set yields exactly the
findings of the rule set with that pattern deleted everywhere (all other
patterns of the same rule and of other rules contribute unchanged), and no
finding is attributed to the failing pattern. -/
theorem C5_invalid_pattern_skipped (rules : List (List Char × RuleConfig))
    (matcher : Matcher) (filePath fileDir content bad : List Char)
    (hbad : matcher bad = none) :
    analyze_file rules matcher filePath fileDir content =
        analyze_file
          (rules.map fun rc =>
            (rc.1, { rc.2 with patterns := rc.2.patterns.filter fun p => decide (p ≠ bad) }))
          matcher filePath fileDir content ∧
      ∀ f ∈ analyze_file rules matcher filePath fileDir content,
        f.pattern ≠ bad := by
  constructor
  · induction rules with
    | nil => rfl
    | cons rc rest ih =>
      unfold analyze_file at ih ⊢
      simp only [List.map_cons, List.flatMap_cons]
      rw [ih]
      congr 1
      obtain ⟨ruleName, en, sev, dirs, pats⟩ := rc
      by_cases ha : ruleApplies ⟨en, sev, dirs, pats⟩ fileDir
      · have ha2 : ruleApplies
            ⟨en, sev, dirs, pats.filter fun p => decide (p ≠ bad)⟩ fileDir = true := ha
        rw [if_pos ha, if_pos ha2]
        exact flatMap_patternFindings_filter matcher filePath content ruleName
          ⟨en, sev, dirs, pats⟩ pats bad hbad
      · have ha2 : ¬ ruleApplies
            ⟨en, sev, dirs, pats.filter fun p => decide (p ≠ bad)⟩ fileDir = true := ha
        rw [if_neg ha, if_neg ha2]
  · intro f hf
    obtain ⟨ruleName, cfg, hmem, ha, pat, hpat, hpf⟩ := mem_analyze_file.mp hf
    obtain ⟨search, hms, m, hm, heq⟩ := mem_patternFindings.mp hpf
    subst heq
    intro hbadpat
    rw [show (mkFinding filePath content ruleName cfg pat m).pattern = pat from rfl]
      at hbadpat
    subst hbadpat
    rw [hbad] at hms
    exact Option.noConfusion hms

/-- A matcher for which the empty pattern fails to compile and every other
pattern reports one match at offset 3. -/
def matcherBad : Matcher :=
  fun p => if p.length = 0 then none else some (fun _ => [⟨3, "c".toList⟩])

/-- A one-rule rule set whose first pattern is the failing empty pattern. -/
def rulesWithBad : List (List Char × RuleConfig) :=
  [("race".toList,
    { enabled := true
      severity := some Severity.high
      directories := ["kernel".toList]
      patterns := [[], "race".toList] })]

theorem C5_invalid_pattern_skipped_witness :
    analyze_file rulesWithBad matcherBad filePath0 fileDir0 content0 =
        analyze_file
          (rulesWithBad.map fun rc =>
            (rc.1, { rc.2 with patterns := rc.2.patterns.filter fun p => decide (p ≠ ([] : List Char)) }))
          matcherBad filePath0 fileDir0 content0 ∧
      ∀ f ∈ analyze_file rulesWithBad matcherBad filePath0 fileDir0 content0,
        f.pattern ≠ ([] : List Char) :=
  C5_invalid_pattern_skipped rulesWithBad matcherBad filePath0 fileDir0 content0
    [] rfl

/-- C8: the size cap of `get_c_files` is inclusive: a candidate .c file not
matching an exclude pattern is kept when its size equals max_file_size and
skipped when its size is max_file_size + 1. -/
theorem C8_size_cap_inclusive (tree : List FileEntry)
    (exclude : List Char → Bool) (max_file_size : Nat) (f : FileEntry)
    (hin : f ∈ tree) (hc : ".c".toList.isSuffixOf f.path = true)
    (hex : exclude f.path = false) :
    (f.size = max_file_size → f ∈ get_c_files tree exclude max_file_size) ∧
      (f.size = max_file_size + 1 →
        f ∉ get_c_files tree exclude max_file_size) := by
  constructor
  · intro hsz
    rw [get_c_files, List.mem_filter]
    refine ⟨hin, ?_⟩
    simp [hex, hsz]
    simpa using hc
  · intro hsz hmem
    rw [get_c_files, List.mem_filter] at hmem
    simp [hc, hex, hsz] at hmem

theorem C8_size_cap_inclusive_witness :
    (⟨"kernel/a.c".toList, 10⟩ : FileEntry) ∈
        get_c_files [⟨"kernel/a.c".toList, 10⟩, ⟨"kernel/b.c".toList, 11⟩]
          (fun _ => false) 10 ∧
      (⟨"kernel/b.c".toList, 11⟩ : FileEntry) ∉
        get_c_files [⟨"kernel/a.c".toList, 10⟩, ⟨"kernel/b.c".toList, 11⟩]
          (fun _ => false) 10 :=
  ⟨(C8_size_cap_inclusive [⟨"kernel/a.c".toList, 10⟩, ⟨"kernel/b.c".toList, 11⟩]
      (fun _ => false) 10 ⟨"kernel/a.c".toList, 10⟩ (by decide) (by decide)
      rfl).1 rfl,
   (C8_size_cap_inclusive [⟨"kernel/a.c".toList, 10⟩, ⟨"kernel/b.c".toList, 11⟩]
      (fun _ => false) 10 ⟨"kernel/b.c".toList, 11⟩ (by decide) (by decide)
      rfl).2 rfl⟩

lemma classify_foldl_eq_filter (mp : MatchPred) (cats : List Category)
    (issues : List Finding) (acc : List Char → List ClassifiedIssue) (c : List Char) :
    (issues.foldl
        (fun acc issue => fun c =>
          if c = (classifyFinding mp cats issue).1 then
            acc c ++ [(classifyFinding mp cats issue).2]
          else acc c)
        acc) c =
      acc c ++
        (issues.filter fun i => decide (c = (classifyFinding mp cats i).1)).map
          (fun i => (classifyFinding mp cats i).2) := by
  induction issues generalizing acc with
  | nil => simp
  | cons i rest ih =>
    rw [List.foldl_cons, ih]
    by_cases hc : c = (classifyFinding mp cats i).1
    · simp [List.filter_cons, hc]
    · simp [List.filter_cons, hc]

lemma firstCategoryMatch_none (mp : MatchPred) (cats : List Category)
    (text : List Char)
    (h : ∀ cat ∈ cats, ∀ p ∈ cat.patterns, mp p text = false) :
    firstCategoryMatch mp cats text = none := by
  unfold firstCategoryMatch
  induction cats with
  | nil => rfl
  | cons cat rest ih =>
    rw [List.findSome?_cons]
    have hnone : (cat.patterns.find? fun p => mp p text) = none := by
      rw [List.find?_eq_none]
      intro p hp
      simp [h cat (List.mem_cons_self cat rest) p hp]
    rw [hnone]
    simp only [Option.map_none']
    exact ih fun cat2 h2 => h cat2 (List.mem_cons_of_mem cat h2)

lemma firstCategoryMatch_pos (mp : MatchPred) (text : List Char) :
    ∀ (cats : List Category) (i : Nat) (hi : i < cats.length),
      (∃ p ∈ cats[i].patterns, mp p text = true) →
      (∀ j (hj : j < i), ∀ p ∈ cats[j].patterns, mp p text = false) →
      ∃ p, firstCategoryMatch mp cats text = some (cats[i], p) := by
  intro cats
  induction cats with
  | nil =>
    intro i hi
    simp at hi
  | cons cat rest ih =>
    intro i hi hex hbefore
    cases i with
    | zero =>
      obtain ⟨p, hp, hmp⟩ := hex
      have hsome : (cat.patterns.find? fun q => mp q text).isSome := by
        rw [List.find?_isSome]
        exact ⟨p, by simpa using hp, by simpa using hmp⟩
      obtain ⟨q, hq⟩ := Option.isSome_iff_exists.mp hsome
      refine ⟨q, ?_⟩
      unfold firstCategoryMatch
      rw [List.findSome?_cons, hq]
      simp
    | succ i2 =>
      have hnone : (cat.patterns.find? fun q => mp q text) = none := by
        rw [List.find?_eq_none]
        intro q hq
        have h0 := hbefore 0 (Nat.succ_pos i2) q (by simpa using hq)
        simp [h0]
      have hi2 : i2 < rest.length := by
        simpa using Nat.lt_of_succ_lt_succ hi
      have hex2 : ∃ p ∈ rest[i2].patterns, mp p text = true := by
        simpa using hex
      have hbefore2 : ∀ j (hj : j < i2), ∀ p ∈ rest[j].patterns, mp p text = false := by
        intro j hj p hp
        have := hbefore (j + 1) (Nat.succ_lt_succ hj) p (by simpa using hp)
        exact this
      obtain ⟨p, hfcm⟩ := ih i2 hi2 hex2 hbefore2
      refine ⟨p, ?_⟩
      unfold firstCategoryMatch at hfcm ⊢
      rw [List.findSome?_cons, hnone]
      simpa using hfcm

/-- C4: classification assigns each finding to exactly one bucket: bucket c
holds precisely the findings whose assigned category is c, in input order
(no finding lost, none duplicated); the assigned category is the first
category in declared order having a pattern that matches the lowered
matched text, so a finding matching two categories lands in the
earlier-declared one, and a finding matching no category lands in the
reserved general_concurrency bucket. -/
theorem C4_classification (mp : MatchPred) (cats : List Category)
    (issues : List Finding) :
    (∀ c, classify_concurrency_issues mp cats issues c =
        (issues.filter fun i => decide (c = (classifyFinding mp cats i).1)).map
          (fun i => (classifyFinding mp cats i).2)) ∧
      (∀ (issue : Finding) (i : Nat) (hi : i < cats.length),
        (∃ p ∈ cats[i].patterns, mp p (toLowerStr issue.matchText) = true) →
        (∀ j (hj : j < i), ∀ p ∈ cats[j].patterns,
          mp p (toLowerStr issue.matchText) = false) →
        (classifyFinding mp cats issue).1 = cats[i].key) ∧
      (∀ issue : Finding,
        (∀ cat ∈ cats, ∀ p ∈ cat.patterns,
          mp p (toLowerStr issue.matchText) = false) →
        (classifyFinding mp cats issue).1 = generalKey) := by
  refine ⟨?_, ?_, ?_⟩
  · intro c
    unfold classify_concurrency_issues
    rw [classify_foldl_eq_filter]
    simp
  · intro issue i hi hex hbefore
    obtain ⟨p, hfcm⟩ := firstCategoryMatch_pos mp (toLowerStr issue.matchText)
      cats i hi hex hbefore
    unfold classifyFinding
    rw [hfcm]
  · intro issue hnone
    unfold classifyFinding
    rw [firstCategoryMatch_none mp cats (toLowerStr issue.matchText) hnone]

/-- A concrete classification match predicate: substring containment of
the pattern in the text. -/
def mp0 : MatchPred := fun p t => strContains t p

/-- Two concrete categories whose patterns both match the witness issue
below. -/
def cats0 : List Category :=
  [{ key := "race_condition".toList
     patterns := ["race".toList]
     description := "Race conditions".toList },
   { key := "deadlock".toList
     patterns := ["lock".toList]
     description := "Deadlocks".toList }]

/-- A finding whose lowered matched text satisfies the patterns of both
categories of `cats0`. -/
def issueBoth : Finding :=
  { file := filePath0
    line := 1
    pattern := "x".toList
    rule := "concurrency".toList
    severity := Severity.high
    matchText := "Race lock".toList
    context := [] }

theorem C4_classification_witness :
    (classifyFinding mp0 cats0 issueBoth).1 = cats0[0].key ∧
      cats0[0].key = "race_condition".toList :=
  ⟨(C4_classification mp0 cats0 [issueBoth]).2.1 issueBoth 0 (by decide)
      (by decide)
      (fun j hj => absurd hj (Nat.not_lt_zero j)),
   by decide⟩

/-- C7: for a readable source file the attached snippet is exactly the
window of lines from max(1, line-5) through min(number_of_lines, line+5)
around the finding line, each annotated with its 1-based number, the
matched line carrying a marker prefix distinct from the four-space prefix
of context lines; a missing file and an unreadable file yield placeholder
snippets instead, and classification never fails. -/
theorem C7_snippet_window_and_placeholders (lines : List (List Char))
    (filePath msg : List Char) (line : Nat) (h1 : 1 ≤ line) :
    extract_code_snippet (FileAccess.readable lines) filePath line =
        (List.range' (max 1 (line - 5))
            (min lines.length (line + 5) + 1 - max 1 (line - 5))).map
          (fun k => snippetLine (line - 1) (k - 1) (lines.getD (k - 1) [])) ∧
      (∀ t, (snippetLine (line - 1) (line - 1) t).take 4 = ">>> ".toList) ∧
      (∀ i t, i ≠ line - 1 → (snippetLine (line - 1) i t).take 4 = "    ".toList) ∧
      extract_code_snippet FileAccess.missing filePath line =
        ["File not found: ".toList ++ filePath] ∧
      extract_code_snippet (FileAccess.unreadable msg) filePath line =
        ["Error reading file: ".toList ++ msg] := by
  refine ⟨?_, ?_, ?_, rfl, rfl⟩
  · have hcnt : min lines.length (line + 5) + 1 - max 1 (line - 5) =
        min lines.length (line - 1 + 6) - (line - 1 - 5) := by omega
    have hstart : max 1 (line - 5) = line - 1 - 5 + 1 := by omega
    simp only [extract_code_snippet]
    rw [hcnt, hstart, List.range'_eq_map_range, List.range'_eq_map_range,
      List.map_map, List.map_map]
    apply List.map_congr_left
    intro j hj
    simp only [Function.comp]
    have harg : line - 1 - 5 + 1 + j - 1 = line - 1 - 5 + j := by omega
    rw [harg]
  · intro t
    simp only [snippetLine, if_pos rfl]
    rfl
  · intro i t hne
    simp only [snippetLine, if_neg hne]
    rfl

theorem C7_snippet_witness :
    extract_code_snippet FileAccess.missing filePath0 1 =
        ["File not found: ".toList ++ filePath0] ∧
      (snippetLine 0 0 "ab".toList).take 4 = ">>> ".toList :=
  ⟨(C7_snippet_window_and_placeholders [] filePath0 [] 1 (by decide)).2.2.2.1,
   (C7_snippet_window_and_placeholders [] filePath0 [] 1 (by decide)).2.1
     "ab".toList⟩

lemma keyedPatterns_map_snd (matcher : Matcher)
    (filePath content ruleName : List Char) (cfg : RuleConfig) (ridx : Nat) :
    ∀ (pidx : Nat) (pats : List (List Char)),
      (keyedPatterns matcher filePath content ruleName cfg ridx pidx pats).map
          Prod.snd =
        pats.flatMap (patternFindings matcher filePath content ruleName cfg) := by
  intro pidx pats
  induction pats generalizing pidx with
  | nil => rfl
  | cons p rest ih =>
    simp only [keyedPatterns, List.flatMap_cons, List.map_append, ih]
    congr 1
    unfold patternFindings
    cases hm : matcher p <;> simp [hm]

lemma keyedRules_map_snd (matcher : Matcher) (filePath fileDir content : List Char) :
    ∀ (ridx : Nat) (rules : List (List Char × RuleConfig)),
      (keyedRules matcher filePath fileDir content ridx rules).map Prod.snd =
        analyze_file rules matcher filePath fileDir content := by
  intro ridx rules
  induction rules generalizing ridx with
  | nil => rfl
  | cons rc rest ih =>
    have hsplit : analyze_file (rc :: rest) matcher filePath fileDir content =
        (if ruleApplies rc.2 fileDir then
          rc.2.patterns.flatMap (patternFindings matcher filePath content rc.1 rc.2)
        else []) ++ analyze_file rest matcher filePath fileDir content := by
      unfold analyze_file
      rw [List.flatMap_cons]
    rw [hsplit]
    simp only [keyedRules, List.map_append]
    congr 1
    · by_cases ha : ruleApplies rc.2 fileDir
      · rw [if_pos ha, if_pos ha]
        exact keyedPatterns_map_snd matcher filePath content rc.1 rc.2 ridx 0
          rc.2.patterns
      · rw [if_neg ha, if_neg ha]
        rfl
    · exact ih (ridx + 1)

lemma keyedPatterns_key_bounds (matcher : Matcher)
    (filePath content ruleName : List Char) (cfg : RuleConfig) (ridx : Nat) :
    ∀ (pidx : Nat) (pats : List (List Char)) x,
      x ∈ keyedPatterns matcher filePath content ruleName cfg ridx pidx pats →
        x.1.1 = ridx ∧ pidx ≤ x.1.2.1 := by
  intro pidx pats
  induction pats generalizing pidx with
  | nil =>
    intro x hx
    simp [keyedPatterns] at hx
  | cons p rest ih =>
    intro x hx
    simp only [keyedPatterns, List.mem_append] at hx
    rcases hx with hx | hx
    · cases hm : matcher p with
      | none => rw [hm] at hx; simp at hx
      | some search =>
        rw [hm] at hx
        simp only [List.mem_map] at hx
        obtain ⟨m, _, heq⟩ := hx
        subst heq
        exact ⟨rfl, Nat.le_refl pidx⟩
    · have := ih (pidx + 1) x hx
      exact ⟨this.1, Nat.le_of_succ_le this.2⟩

lemma keyedPatterns_sorted (matcher : Matcher)
    (filePath content ruleName : List Char) (cfg : RuleConfig) (ridx : Nat)
    (hsorted : ∀ pat search, matcher pat = some search →
      ((search content).map RMatch.start).Pairwise (· < ·)) :
    ∀ (pidx : Nat) (pats : List (List Char)),
      ((keyedPatterns matcher filePath content ruleName cfg ridx pidx pats).map
          Prod.fst).Pairwise keyLt := by
  intro pidx pats
  induction pats generalizing pidx with
  | nil => simp [keyedPatterns]
  | cons p rest ih =>
    simp only [keyedPatterns, List.map_append]
    rw [List.pairwise_append]
    refine ⟨?_, ih (pidx + 1), ?_⟩
    · cases hm : matcher p with
      | none => simp
      | some search =>
        simp only [List.map_map]
        have hps := hsorted p search hm
        rw [List.pairwise_map] at hps ⊢
        exact hps.imp fun hlt => Or.inr ⟨rfl, Or.inr ⟨rfl, hlt⟩⟩
    · intro a ha b hb
      simp only [List.mem_map] at ha hb
      obtain ⟨xb, hxb, heqb⟩ := hb
      subst heqb
      have hbb := keyedPatterns_key_bounds matcher filePath content ruleName cfg
        ridx (pidx + 1) rest xb hxb
      cases hm : matcher p with
      | none => rw [hm] at ha; simp at ha
      | some search =>
        rw [hm] at ha
        obtain ⟨xa, hxa, heqa⟩ := ha
        simp only [List.mem_map] at hxa
        obtain ⟨m, _, heqm⟩ := hxa
        subst heqm
        subst heqa
        exact Or.inr ⟨hbb.1.symm, Or.inl (Nat.lt_of_lt_of_le (Nat.lt_succ_self pidx) hbb.2)⟩

lemma keyedRules_key_bound (matcher : Matcher)
    (filePath fileDir content : List Char) :
    ∀ (ridx : Nat) (rules : List (List Char × RuleConfig)) x,
      x ∈ keyedRules matcher filePath fileDir content ridx rules →
        ridx ≤ x.1.1 := by
  intro ridx rules
  induction rules generalizing ridx with
  | nil =>
    intro x hx
    simp [keyedRules] at hx
  | cons rc rest ih =>
    intro x hx
    simp only [keyedRules, List.mem_append] at hx
    rcases hx with hx | hx
    · by_cases ha : ruleApplies rc.2 fileDir
      · rw [if_pos ha] at hx
        have := keyedPatterns_key_bounds matcher filePath content rc.1 rc.2
          ridx 0 rc.2.patterns x hx
        exact this.1.ge
      · rw [if_neg ha] at hx
        simp at hx
    · exact Nat.le_of_succ_le (ih (ridx + 1) x hx)

lemma keyedRules_sorted (matcher : Matcher)
    (filePath fileDir content : List Char)
    (hsorted : ∀ pat search, matcher pat = some search →
      ((search content).map RMatch.start).Pairwise (· < ·)) :
    ∀ (ridx : Nat) (rules : List (List Char × RuleConfig)),
      ((keyedRules matcher filePath fileDir content ridx rules).map
          Prod.fst).Pairwise keyLt := by
  intro ridx rules
  induction rules generalizing ridx with
  | nil => simp [keyedRules]
  | cons rc rest ih =>
    simp only [keyedRules, List.map_append]
    rw [List.pairwise_append]
    refine ⟨?_, ih (ridx + 1), ?_⟩
    · by_cases ha : ruleApplies rc.2 fileDir
      · rw [if_pos ha]
        exact keyedPatterns_sorted matcher filePath content rc.1 rc.2 ridx
          hsorted 0 rc.2.patterns
      · rw [if_neg ha]
        simp
    · intro a ha2 b hb
      simp only [List.mem_map] at ha2 hb
      obtain ⟨xa, hxa, heqa⟩ := ha2
      obtain ⟨xb, hxb, heqb⟩ := hb
      subst heqa
      subst heqb
      have hbb := keyedRules_key_bound matcher filePath fileDir content
        (ridx + 1) rest xb hxb
      by_cases hra : ruleApplies rc.2 fileDir
      · rw [if_pos hra] at hxa
        have haa := keyedPatterns_key_bounds matcher filePath content rc.1 rc.2
          ridx 0 rc.2.patterns xa hxa
        exact Or.inl (Nat.lt_of_lt_of_le (haa.1 ▸ Nat.lt_succ_self ridx) hbb)
      · rw [if_neg hra] at hxa
        simp at hxa

/-- C9: the findings of one file are emitted in rule-then-pattern-then-
match-position order: tagging each finding of `analyze_file` with its
(rule index in declared order, pattern index in declared order, match
start offset) yields a strictly lexicographically increasing key sequence,
provided the matcher reports the matches of each pattern in ascending
position order (as re.finditer does). -/
theorem C9_findings_ordered (rules : List (List Char × RuleConfig))
    (matcher : Matcher) (filePath fileDir content : List Char)
    (hsorted : ∀ pat search, matcher pat = some search →
      ((search content).map RMatch.start).Pairwise (· < ·)) :
    ((analyze_file_keyed rules matcher filePath fileDir content).map
        Prod.fst).Pairwise keyLt ∧
      (analyze_file_keyed rules matcher filePath fileDir content).map Prod.snd =
        analyze_file rules matcher filePath fileDir content :=
  ⟨keyedRules_sorted matcher filePath fileDir content hsorted 0 rules,
   keyedRules_map_snd matcher filePath fileDir content 0 rules⟩

/-- A matcher reporting two matches in ascending position order for every
pattern. -/
def matcherTwo : Matcher :=
  fun _ => some (fun _ => [⟨0, "a".toList⟩, ⟨3, "c".toList⟩])

theorem C9_findings_ordered_witness :
    ((analyze_file_keyed rules0 matcherTwo filePath0 fileDir0 content0).map
        Prod.fst).Pairwise keyLt ∧
      (analyze_file_keyed rules0 matcherTwo filePath0 fileDir0 content0).map
          Prod.snd =
        analyze_file rules0 matcherTwo filePath0 fileDir0 content0 :=
  C9_findings_ordered rules0 matcherTwo filePath0 fileDir0 content0
    (by
      intro pat search h
      cases h
      decide)

/-- A Unicode scalar value: a code point below 0x110000 that is not a
surrogate.  Exactly the code points Python file text can carry after a
utf-8 decode. -/
abbrev isScalarValue (c : Nat) : Prop :=
  c < 1114112 ∧ ¬ (55296 ≤ c ∧ c < 57344)

lemma validScalar_iff (lo v : Nat) :
    validScalar lo v = true ↔
      lo ≤ v ∧ v < 1114112 ∧ ¬ (55296 ≤ v ∧ v < 57344) := by
  simp [validScalar]
  omega

lemma fold_cont_emit (acc lo b : Nat) (r : List Nat) (hc : isCont b = true)
    (hv : validScalar lo (acc * 64 + (b - 128)) = true) :
    utf8Fold (1, acc, lo) (b :: r) =
      (acc * 64 + (b - 128)) :: utf8Fold (0, 0, 0) r := by
  simp only [utf8Fold]
  rw [if_pos hc]
  simp [hv]

lemma fold_cont_more (k acc lo b : Nat) (r : List Nat) (hc : isCont b = true)
    (hk : k ≠ 0) :
    utf8Fold (k + 1, acc, lo) (b :: r) =
      utf8Fold (k, acc * 64 + (b - 128), lo) r := by
  simp only [utf8Fold]
  rw [if_pos hc, if_neg hk]

lemma fold_encodeChar (c : Nat) (hc : isScalarValue c) (r : List Nat) :
    utf8Fold (0, 0, 0) (utf8EncodeChar c ++ r) = c :: utf8Fold (0, 0, 0) r := by
  obtain ⟨hcu, hcs⟩ := hc
  by_cases h1 : c < 128
  · have henc : utf8EncodeChar c = [c] := by simp [utf8EncodeChar, h1]
    have hl : leadState c = (some c, (0, 0, 0)) := by simp [leadState, h1]
    rw [henc]
    simp only [List.cons_append, List.nil_append, utf8Fold]
    rw [hl]
    rfl
  · by_cases h2 : c < 2048
    · have henc : utf8EncodeChar c = [192 + c / 64, 128 + c % 64] := by
        simp [utf8EncodeChar, h1, h2]
      have hl : leadState (192 + c / 64) = (none, (1, c / 64, 128)) := by
        have e1 : ¬ (192 + c / 64 < 128) := by omega
        have e2 : ¬ (192 + c / 64 < 192) := by omega
        have e3 : 192 + c / 64 < 224 := by omega
        have e5 : 192 + c / 64 - 192 = c / 64 := by omega
        simp only [leadState]
        rw [if_neg e1, if_neg e2, if_pos e3, e5]
      have hcont : isCont (128 + c % 64) = true := by
        simp only [isCont, Bool.and_eq_true, decide_eq_true_eq]
        omega
      have hv : validScalar 128 (c / 64 * 64 + (128 + c % 64 - 128)) = true := by
        rw [validScalar_iff]
        omega
      have hval : c / 64 * 64 + (128 + c % 64 - 128) = c := by omega
      rw [henc]
      simp only [List.cons_append, List.nil_append]
      have step1 : utf8Fold (0, 0, 0) ((192 + c / 64) :: (128 + c % 64) :: r) =
          utf8Fold (1, c / 64, 128) ((128 + c % 64) :: r) := by
        conv_lhs => simp only [utf8Fold]
        rw [hl]
      rw [step1, fold_cont_emit _ _ _ _ hcont hv, hval]
    · by_cases h3 : c < 65536
      · have henc : utf8EncodeChar c =
            [224 + c / 4096, 128 + (c / 64) % 64, 128 + c % 64] := by
          simp [utf8EncodeChar, h1, h2, h3]
        have hl : leadState (224 + c / 4096) = (none, (2, c / 4096, 2048)) := by
          have e1 : ¬ (224 + c / 4096 < 128) := by omega
          have e2 : ¬ (224 + c / 4096 < 192) := by omega
          have e3 : ¬ (224 + c / 4096 < 224) := by omega
          have e4 : 224 + c / 4096 < 240 := by omega
          have e5 : 224 + c / 4096 - 224 = c / 4096 := by omega
          simp only [leadState]
          rw [if_neg e1, if_neg e2, if_neg e3, if_pos e4, e5]
        have hcont1 : isCont (128 + (c / 64) % 64) = true := by
          simp only [isCont, Bool.and_eq_true, decide_eq_true_eq]
          omega
        have hcont2 : isCont (128 + c % 64) = true := by
          simp only [isCont, Bool.and_eq_true, decide_eq_true_eq]
          omega
        have hacc1 : c / 4096 * 64 + (128 + (c / 64) % 64 - 128) = c / 64 := by
          omega
        have hv : validScalar 2048 (c / 64 * 64 + (128 + c % 64 - 128)) = true := by
          rw [validScalar_iff]
          omega
        have hval : c / 64 * 64 + (128 + c % 64 - 128) = c := by omega
        rw [henc]
        simp only [List.cons_append, List.nil_append]
        have step1 : utf8Fold (0, 0, 0)
            ((224 + c / 4096) :: (128 + (c / 64) % 64) :: (128 + c % 64) :: r) =
            utf8Fold (2, c / 4096, 2048)
              ((128 + (c / 64) % 64) :: (128 + c % 64) :: r) := by
          conv_lhs => simp only [utf8Fold]
          rw [hl]
        rw [step1, fold_cont_more _ _ _ _ _ hcont1 (by omega), hacc1,
          fold_cont_emit _ _ _ _ hcont2 hv, hval]
      · have henc : utf8EncodeChar c =
            [240 + c / 262144, 128 + (c / 4096) % 64, 128 + (c / 64) % 64,
              128 + c % 64] := by
          simp [utf8EncodeChar, h1, h2, h3]
        have hl : leadState (240 + c / 262144) = (none, (3, c / 262144, 65536)) := by
          have e1 : ¬ (240 + c / 262144 < 128) := by omega
          have e2 : ¬ (240 + c / 262144 < 192) := by omega
          have e3 : ¬ (240 + c / 262144 < 224) := by omega
          have e4 : ¬ (240 + c / 262144 < 240) := by omega
          have e5 : 240 + c / 262144 < 248 := by omega
          have e6 : 240 + c / 262144 - 240 = c / 262144 := by omega
          simp only [leadState]
          rw [if_neg e1, if_neg e2, if_neg e3, if_neg e4, if_pos e5, e6]
        have hcont1 : isCont (128 + (c / 4096) % 64) = true := by
          simp only [isCont, Bool.and_eq_true, decide_eq_true_eq]
          omega
        have hcont2 : isCont (128 + (c / 64) % 64) = true := by
          simp only [isCont, Bool.and_eq_true, decide_eq_true_eq]
          omega
        have hcont3 : isCont (128 + c % 64) = true := by
          simp only [isCont, Bool.and_eq_true, decide_eq_true_eq]
          omega
        have hacc1 : c / 262144 * 64 + (128 + (c / 4096) % 64 - 128) = c / 4096 := by
          omega
        have hacc2 : c / 4096 * 64 + (128 + (c / 64) % 64 - 128) = c / 64 := by
          omega
        have hv : validScalar 65536 (c / 64 * 64 + (128 + c % 64 - 128)) = true := by
          rw [validScalar_iff]
          omega
        have hval : c / 64 * 64 + (128 + c % 64 - 128) = c := by omega
        rw [henc]
        simp only [List.cons_append, List.nil_append]
        have step1 : utf8Fold (0, 0, 0)
            ((240 + c / 262144) :: (128 + (c / 4096) % 64) ::
              (128 + (c / 64) % 64) :: (128 + c % 64) :: r) =
            utf8Fold (3, c / 262144, 65536) ((128 + (c / 4096) % 64) ::
              (128 + (c / 64) % 64) :: (128 + c % 64) :: r) := by
          conv_lhs => simp only [utf8Fold]
          rw [hl]
        rw [step1, fold_cont_more _ _ _ _ _ hcont1 (by omega), hacc1,
          fold_cont_more _ _ _ _ _ hcont2 (by omega), hacc2,
          fold_cont_emit _ _ _ _ hcont3 hv, hval]

lemma utf8_roundtrip (cs : List Nat) (h : ∀ c ∈ cs, isScalarValue c) :
    utf8DecodeIgnore (utf8Encode cs) = cs := by
  unfold utf8DecodeIgnore
  induction cs with
  | nil => rfl
  | cons c rest ih =>
    have hc : isScalarValue c := h c (List.mem_cons_self c rest)
    have hrest : ∀ x ∈ rest, isScalarValue x :=
      fun x hx => h x (List.mem_cons_of_mem c hx)
    have hexp : utf8Encode (c :: rest) = utf8EncodeChar c ++ utf8Encode rest := by
      simp [utf8Encode]
    rw [hexp, fold_encodeChar c hc, ih hrest]

/-- The validity checks of the decoder at work, as the CPython utf-8
decoder behaves under errors ignore: a surrogate encoding (ED A0 80), an
overlong encoding (C0 80) and an out-of-range encoding (F4 90 80 80) all
decode to nothing, while the adjacent well-formed byte 0x41 survives. -/
lemma utf8DecodeIgnore_rejects_invalid_forms :
    utf8DecodeIgnore [237, 160, 128] = [] ∧
      utf8DecodeIgnore [192, 128] = [] ∧
      utf8DecodeIgnore [244, 144, 128, 128] = [] ∧
      utf8DecodeIgnore [237, 160, 128, 65] = [65] := by
  refine ⟨by decide, by decide, by decide, by decide⟩

/-- C6 counterexample: the claim says decode failure substitutes invalid
bytes; the errors-ignore decode of the code drops them instead.  On the
byte sequence 0xFF 0x61 the code decodes to just 0x61, while substitution
(as the spec words it, each invalid byte becoming U+FFFD) would yield two
code points; the two behaviours differ at this input. -/
theorem C6_substitution_counterexample :
    utf8DecodeIgnore [255, 97] = [97] ∧
      utf8DecodeReplace [255, 97] = [65533, 97] ∧
      utf8DecodeIgnore [255, 97] ≠ utf8DecodeReplace [255, 97] := by
  refine ⟨by decide, by decide, by decide⟩

/-- C6 (amended): reading a file for scanning never fails on encoding
errors: a readable file is always decoded and scanned whatever its raw
bytes (the failure branch of analyze_file is reserved for OSError), the
decode is lossless on well-formed utf-8 (any sequence of Unicode scalar
values, surrogates excluded, encodes and decodes back to itself), and on
decode failure invalid bytes are dropped (errors ignore), not treated as
a per-file failure. -/
theorem C6_lossy_decode_never_fails (rules : List (List Char × RuleConfig))
    (matcher : Matcher) (filePath fileDir : List Char) :
    (∀ bytes, analyze_file_read rules matcher filePath fileDir (some bytes) =
        analyze_file rules matcher filePath fileDir (bytesToContent bytes)) ∧
      (∀ cs, (∀ c ∈ cs, isScalarValue c) →
        utf8DecodeIgnore (utf8Encode cs) = cs) :=
  ⟨fun _ => rfl, fun cs h => utf8_roundtrip cs h⟩

theorem C6_lossy_decode_never_fails_witness :
    analyze_file_read rules0 matcher0 filePath0 fileDir0 (some [255, 97]) =
        analyze_file rules0 matcher0 filePath0 fileDir0 (bytesToContent [255, 97]) ∧
      utf8DecodeIgnore (utf8Encode [104, 955]) = [104, 955] :=
  ⟨(C6_lossy_decode_never_fails rules0 matcher0 filePath0 fileDir0).1 [255, 97],
   (C6_lossy_decode_never_fails rules0 matcher0 filePath0 fileDir0).2 [104, 955]
     (by decide)⟩

end KernelDetector
